import Mathlib

/-!
Verification of the "Raw First, Summarize Later" pipeline of the
claude-mem-plugin repository: the durable tool-event queue
(RawToolEventStore), the summary-request queue (RawSummaryRequestStore),
the two background workers (RawEventSummarizer, RawSummarySummarizer) and
the ProcessTracker.  Each definition is a shallow embedding of the
corresponding TypeScript function; a database table is a list of rows,
epochs are natural numbers of milliseconds, and SQL statements are
translated statement by statement.
-/

namespace ClaudeMem

/-- Row status lifecycle shared by both queue tables. -/
inductive Status where
  | pending
  | summarizing
  | completed
  | failed
deriving DecidableEq, Repr

/-- A row of the raw_tool_events table (interface RawToolEvent in
RawToolEventStore.ts). -/
structure RawToolEvent where
  id : Nat
  session_db_id : Nat
  content_session_id : String
  tool_name : String
  tool_input : Option String
  tool_response : Option String
  cwd : Option String
  prompt_number : Option Nat
  project : Option String
  status : Status
  retry_count : Nat
  created_at_epoch : Nat
  summarized_at_epoch : Option Nat
  observation_id : Option Nat
  error_message : Option String
deriving DecidableEq, Repr

/-- Input for insertRaw (interface RawToolEventInput).  The payloads are
modelled after serialization: tool_input and tool_response carry the string
the JavaScript code would have in hand (tool_response is used directly when
it is a string, otherwise its JSON.stringify image). -/
structure RawToolEventInput where
  tool_name : String
  tool_input : Option String
  tool_response : Option String
  cwd : Option String
  prompt_number : Option Nat
  project : Option String
deriving DecidableEq, Repr

/-- The truncation suffix appended by insertRaw in RawToolEventStore.ts. -/
def truncMarker : String := "... [truncated]"

/-- Constructor default maxResponseLength in RawToolEventStore.ts. -/
def defaultMaxResponseLength : Nat := 50000

/-- Constructor default maxRetries in RawToolEventStore.ts and
RawSummaryRequestStore.ts. -/
def defaultMaxRetries : Nat := 3

/-- Character-level model of the JavaScript responseStr.slice(0, n). -/
def strTake (s : String) (n : Nat) : String := String.mk (s.data.take n)

/-- The truncation step of insertRaw.  Mirrors the JavaScript
`if (data.tool_response) ...` truthiness test: an absent response and an
empty string both leave the stored column NULL; a response longer than
maxLen is cut at maxLen characters and tagged with the marker. -/
def truncateResponse (maxLen : Nat) (resp : Option String) : Option String :=
  match resp with
  | none => none
  | some s =>
    if s.length = 0 then none
    else if s.length > maxLen then some (strTake s maxLen ++ truncMarker)
    else some s

/-- RawToolEventStore.insertRaw.  Appends one row with status pending and
retry_count 0 (the retry_count column default of the raw_tool_events
schema is not under src/; the value 0 is modelled from the spec and from
the sibling raw_summary_requests schema, which declares
retry_count INTEGER DEFAULT 0).  newId stands for the AUTOINCREMENT
rowid returned by the store. -/
def insertRaw (maxLen newId sessionDbId : Nat) (contentSessionId : String)
    (data : RawToolEventInput) (now : Nat) (tbl : List RawToolEvent) :
    List RawToolEvent × Nat :=
  let row : RawToolEvent :=
    { id := newId
      session_db_id := sessionDbId
      content_session_id := contentSessionId
      tool_name := data.tool_name
      tool_input := data.tool_input
      tool_response := truncateResponse maxLen data.tool_response
      cwd := match data.cwd with
             | none => none
             | some c => if c.length = 0 then none else some c
      prompt_number := match data.prompt_number with
                       | none => none
                       | some n => if n = 0 then none else some n
      project := match data.project with
                 | none => none
                 | some p => if p.length = 0 then none else some p
      status := Status.pending
      retry_count := 0
      created_at_epoch := now
      summarized_at_epoch := none
      observation_id := none
      error_message := none }
  (tbl ++ [row], newId)

/-- Comparison used by the ORDER BY created_at_epoch ASC clause. -/
def createdLe (a b : RawToolEvent) : Prop :=
  a.created_at_epoch ≤ b.created_at_epoch

instance : DecidableRel createdLe := fun a b =>
  inferInstanceAs (Decidable (a.created_at_epoch ≤ b.created_at_epoch))

instance : IsTotal RawToolEvent createdLe :=
  ⟨fun a b => Nat.le_total a.created_at_epoch b.created_at_epoch⟩

instance : IsTrans RawToolEvent createdLe :=
  ⟨fun _ _ _ h1 h2 => Nat.le_trans h1 h2⟩

/-- RawToolEventStore.claimBatchForSummarization.  Inside one transaction:
SELECT rows WHERE status = pending ORDER BY created_at_epoch ASC LIMIT lim,
then UPDATE SET status = summarizing WHERE id IN (selected ids).  Returns
the selected batch and the updated table. -/
def claimBatch (lim : Nat) (tbl : List RawToolEvent) :
    List RawToolEvent × List RawToolEvent :=
  let batch :=
    (((tbl.filter (fun r => r.status = Status.pending)).insertionSort
        createdLe).take lim)
  let ids : List Nat := batch.map (fun r => r.id)
  if batch.isEmpty then (batch, tbl)
  else
    (batch,
     tbl.map (fun r =>
       if r.id ∈ ids then { r with status := Status.summarizing } else r))

/-- RawToolEventStore.markCompleted. -/
def markCompleted (id obsId now : Nat) (tbl : List RawToolEvent) :
    List RawToolEvent :=
  tbl.map (fun r =>
    if r.id = id then
      { r with status := Status.completed, observation_id := some obsId,
               summarized_at_epoch := some now }
    else r)

/-- RawToolEventStore.markFailed.  Reads the first row with the given id
(the SELECT ... .get call), increments its retry_count, and rewrites every
row carrying that id with the new count, the error message, and status
failed when the new count reaches maxRetries, pending otherwise. -/
def markFailed (maxRetries id : Nat) (msg : String)
    (tbl : List RawToolEvent) : List RawToolEvent :=
  let current := match tbl.find? (fun r => r.id = id) with
                 | some e => e.retry_count
                 | none => 0
  let newCount := current + 1
  let newStatus := if newCount ≥ maxRetries then Status.failed
                   else Status.pending
  tbl.map (fun r =>
    if r.id = id then
      { r with status := newStatus, retry_count := newCount,
               error_message := some msg }
    else r)

/-- Condition of the releaseStuckEvents UPDATE: status = summarizing AND
created_at_epoch < now - olderThanMs.  Natural subtraction agrees with the
JavaScript arithmetic here: when olderThanMs exceeds now the JavaScript
threshold is negative and no non-negative epoch is below it, and the
truncated threshold 0 likewise matches no row. -/
def stuckCond (now olderThanMs : Nat) (r : RawToolEvent) : Prop :=
  r.status = Status.summarizing ∧ r.created_at_epoch < now - olderThanMs

instance (now olderThanMs : Nat) : DecidablePred (stuckCond now olderThanMs) :=
  fun r =>
    inferInstanceAs (Decidable (r.status = Status.summarizing ∧
      r.created_at_epoch < now - olderThanMs))

/-- RawToolEventStore.releaseStuckEvents.  Flips the rows matching
stuckCond back to pending and returns the updated table together with the
number of changed rows. -/
def releaseStuckEvents (now olderThanMs : Nat) (tbl : List RawToolEvent) :
    List RawToolEvent × Nat :=
  (tbl.map (fun r =>
     if stuckCond now olderThanMs r then { r with status := Status.pending }
     else r),
   tbl.countP (fun r => decide (stuckCond now olderThanMs r)))

/-- RawToolEventStore.deleteCompleted: DELETE WHERE status = completed AND
summarized_at_epoch < olderThanEpoch.  A NULL summarized_at_epoch never
satisfies the comparison. -/
def deleteCompleted (olderThanEpoch : Nat) (tbl : List RawToolEvent) :
    List RawToolEvent × Nat :=
  let cond : RawToolEvent → Bool := fun r =>
    decide (r.status = Status.completed) &&
      (match r.summarized_at_epoch with
       | some t => decide (t < olderThanEpoch)
       | none => false)
  (tbl.filter (fun r => !cond r), tbl.countP cond)

/-- A row of the raw_summary_requests table (interface RawSummaryRequest in
RawSummaryRequestStore.ts). -/
structure RawSummaryRequest where
  id : Nat
  session_db_id : Nat
  content_session_id : String
  memory_session_id : Option String
  project : String
  user_prompt : String
  last_assistant_message : Option String
  status : Status
  retry_count : Nat
  created_at_epoch : Nat
  summarized_at_epoch : Option Nat
  summary_id : Option Nat
  error_message : Option String
deriving DecidableEq, Repr

/-- RawSummaryRequestStore.insertRaw: appends one row with status pending
and retry_count 0 (schema default retry_count INTEGER DEFAULT 0). -/
def insertRawSR (newId sessionDbId : Nat) (contentSessionId : String)
    (memorySessionId : Option String) (project userPrompt : String)
    (lastAssistantMessage : Option String) (now : Nat)
    (tbl : List RawSummaryRequest) : List RawSummaryRequest × Nat :=
  let row : RawSummaryRequest :=
    { id := newId
      session_db_id := sessionDbId
      content_session_id := contentSessionId
      memory_session_id := memorySessionId
      project := project
      user_prompt := userPrompt
      last_assistant_message := lastAssistantMessage
      status := Status.pending
      retry_count := 0
      created_at_epoch := now
      summarized_at_epoch := none
      summary_id := none
      error_message := none }
  (tbl ++ [row], newId)

/-- Comparison used by the summary queue ORDER BY clause. -/
def createdLeSR (a b : RawSummaryRequest) : Prop :=
  a.created_at_epoch ≤ b.created_at_epoch

instance : DecidableRel createdLeSR := fun a b =>
  inferInstanceAs (Decidable (a.created_at_epoch ≤ b.created_at_epoch))

instance : IsTotal RawSummaryRequest createdLeSR :=
  ⟨fun a b => Nat.le_total a.created_at_epoch b.created_at_epoch⟩

instance : IsTrans RawSummaryRequest createdLeSR :=
  ⟨fun _ _ _ h1 h2 => Nat.le_trans h1 h2⟩

/-- RawSummaryRequestStore.claimBatchForSummarization, same transaction
shape as the tool-event store. -/
def claimBatchSR (lim : Nat) (tbl : List RawSummaryRequest) :
    List RawSummaryRequest × List RawSummaryRequest :=
  let batch :=
    (((tbl.filter (fun r => r.status = Status.pending)).insertionSort
        createdLeSR).take lim)
  let ids : List Nat := batch.map (fun r => r.id)
  if batch.isEmpty then (batch, tbl)
  else
    (batch,
     tbl.map (fun r =>
       if r.id ∈ ids then { r with status := Status.summarizing } else r))

/-- RawSummaryRequestStore.markCompleted. -/
def markCompletedSR (id summaryId now : Nat) (tbl : List RawSummaryRequest) :
    List RawSummaryRequest :=
  tbl.map (fun r =>
    if r.id = id then
      { r with status := Status.completed, summary_id := some summaryId,
               summarized_at_epoch := some now }
    else r)

/-- RawSummaryRequestStore.markFailed, identical retry logic to the
tool-event store. -/
def markFailedSR (maxRetries id : Nat) (msg : String)
    (tbl : List RawSummaryRequest) : List RawSummaryRequest :=
  let current := match tbl.find? (fun r => r.id = id) with
                 | some e => e.retry_count
                 | none => 0
  let newCount := current + 1
  let newStatus := if newCount ≥ maxRetries then Status.failed
                   else Status.pending
  tbl.map (fun r =>
    if r.id = id then
      { r with status := newStatus, retry_count := newCount,
               error_message := some msg }
    else r)

/-- RawSummaryRequestStore.releaseStuckRequests: UPDATE SET status =
pending WHERE status = summarizing, with no age comparison; returns the
updated table and the number of changed rows. -/
def releaseStuckRequests (tbl : List RawSummaryRequest) :
    List RawSummaryRequest × Nat :=
  (tbl.map (fun r =>
     if r.status = Status.summarizing then { r with status := Status.pending }
     else r),
   tbl.countP (fun r => decide (r.status = Status.summarizing)))

/-- RawSummaryRequestStore.hasPendingForSession: does a row for the
session sit in status pending or summarizing. -/
def hasPendingForSession (sessionDbId : Nat)
    (tbl : List RawSummaryRequest) : Bool :=
  0 < tbl.countP (fun r =>
    decide (r.session_db_id = sessionDbId) &&
      (decide (r.status = Status.pending) ||
       decide (r.status = Status.summarizing)))

/-- Modelled from the spec: the HTTP handler for POST /api/sessions/summary
is not under src/.  Per spec section 6 the request is rejected if a
pending or summarizing request already exists for the session, and
otherwise calls insertRaw on the summary queue; the duplicate is not
queued.  The check uses RawSummaryRequestStore.hasPendingForSession, which
is under src/. -/
def summaryEndpointInsert (newId sessionDbId : Nat)
    (contentSessionId : String) (memorySessionId : Option String)
    (project userPrompt : String) (lastAssistantMessage : Option String)
    (now : Nat) (tbl : List RawSummaryRequest) :
    Option (List RawSummaryRequest × Nat) :=
  if hasPendingForSession sessionDbId tbl then none
  else some (insertRawSR newId sessionDbId contentSessionId memorySessionId
    project userPrompt lastAssistantMessage now tbl)

/-- RawEventSummarizer.start calls this.rawStore.releaseStuckEvents() with
no argument, so the olderThanMs parameter takes its declared default of
300000 milliseconds. -/
def eventWorkerStartRelease (now : Nat) (tbl : List RawToolEvent) :
    List RawToolEvent × Nat :=
  releaseStuckEvents now 300000 tbl

/-- Outcome of RawEventSummarizer.summarizeSessionEvents for one
per-session sub-batch, abstracting the external session lookup, LLM call,
parser and SessionStore.  failure covers every thrown error (missing
session record, missing memory_session_id, LLM error, store error);
success carries the number of parsed observations and, when that number is
positive, the observation id list returned by storeObservations. -/
inductive SessionOutcome where
  | failure (msg : String)
  | success (parsedCount : Nat) (obsIds : List Nat)
deriving DecidableEq, Repr

/-- The observation id assigned to the event at position i:
result.observationIds[Math.min(i, result.observationIds.length - 1)] || 0.
getD returns 0 exactly where the JavaScript indexing yields undefined or
the stored id is itself 0, matching the || 0 coercion over Nat ids. -/
def obsIdFor (ids : List Nat) (i : Nat) : Nat :=
  ids.getD (min i (ids.length - 1)) 0

/-- The queue writes performed by summarizeSessionEvents on one
per-session sub-batch: on any thrown error every event of the sub-batch is
markFailed with the error message; on an empty parse every event is
markCompleted with observation id 0; otherwise event i is markCompleted
with obsIdFor ids i. -/
def markSessionOutcome (maxRetries now : Nat) (events : List RawToolEvent)
    (outcome : SessionOutcome) (tbl : List RawToolEvent) :
    List RawToolEvent :=
  match outcome with
  | SessionOutcome.failure msg =>
      events.foldl (fun t e => markFailed maxRetries e.id msg t) tbl
  | SessionOutcome.success n ids =>
      if n = 0 then
        events.foldl (fun t e => markCompleted e.id 0 now t) tbl
      else
        events.enum.foldl
          (fun t p => markCompleted p.2.id (obsIdFor ids p.1) now t) tbl

/-- Session ids of a claimed batch in the order groupBySession produces
them: JavaScript objects iterate integer-like keys in ascending numeric
order. -/
def sessionIds (batch : List RawToolEvent) : List Nat :=
  ((batch.map (fun e => e.session_db_id)).dedup).insertionSort (· ≤ ·)

/-- The per-session sub-batch: claimed events of one session in claim
order. -/
def eventsForSession (batch : List RawToolEvent) (sid : Nat) :
    List RawToolEvent :=
  batch.filter (fun e => e.session_db_id = sid)

/-- One non-skipped tick of RawEventSummarizer.processBatch, restricted to
its effect on the tick counter and the raw_tool_events table: increment
batchCounter; on every 100th tick delete completed rows older than one
hour; claim a batch of batchSize; if the batch is empty stop; otherwise
process each per-session sub-batch with the abstracted outcome oracle.
The loop performs no release of stuck summarizing rows. -/
def eventWorkerTick (maxRetries batchSize now counter : Nat)
    (oracle : Nat → SessionOutcome) (tbl : List RawToolEvent) :
    Nat × List RawToolEvent :=
  let c := counter + 1
  let tbl1 := if c % 100 = 0 then (deleteCompleted (now - 3600000) tbl).1
              else tbl
  let claimed := claimBatch batchSize tbl1
  if claimed.1.isEmpty then (c, claimed.2)
  else
    (c, (sessionIds claimed.1).foldl
      (fun t sid =>
        markSessionOutcome maxRetries now (eventsForSession claimed.1 sid)
          (oracle sid) t)
      claimed.2)

/-- Outcome of RawSummarySummarizer.summarizeRequest for one claimed
request, abstracting the LLM call, parser and SessionStore: failure covers
every thrown error, success carries result.summaryId || 0. -/
inductive RequestOutcome where
  | failure (msg : String)
  | success (summaryId : Nat)
deriving DecidableEq, Repr

/-- The queue write performed by summarizeRequest on one claimed
request. -/
def processRequest (maxRetries now : Nat) (oracle : Nat → RequestOutcome)
    (tbl : List RawSummaryRequest) (req : RawSummaryRequest) :
    List RawSummaryRequest :=
  match oracle req.id with
  | RequestOutcome.success sid => markCompletedSR req.id sid now tbl
  | RequestOutcome.failure msg => markFailedSR maxRetries req.id msg tbl

/-- RawSummarySummarizer.start calls releaseStuckRequests once before the
polling loop. -/
def summaryWorkerStartRelease (tbl : List RawSummaryRequest) :
    List RawSummaryRequest × Nat :=
  releaseStuckRequests tbl

/-- One non-skipped tick of RawSummarySummarizer.processBatch: increment
batchCounter; on every 30th tick (staleCheckEveryNBatches = 30) release
stuck summarizing requests; claim a batch; process each claimed request
individually. -/
def summaryWorkerTick (maxRetries batchSize now counter : Nat)
    (oracle : Nat → RequestOutcome) (tbl : List RawSummaryRequest) :
    Nat × List RawSummaryRequest :=
  let c := counter + 1
  let tbl1 := if c % 30 = 0 then (releaseStuckRequests tbl).1 else tbl
  let claimed := claimBatchSR batchSize tbl1
  if claimed.1.isEmpty then (c, claimed.2)
  else (c, claimed.1.foldl (processRequest maxRetries now oracle) claimed.2)

/-- The fields of a Node ChildProcess handle that
ProcessTracker.terminateProcess inspects.  killed is Node semantics: it is
set to true as soon as a kill() call successfully sends a signal, whether
or not the process has exited. -/
structure ProcHandle where
  pid : Nat
  killed : Bool
  exitCode : Option Int
deriving DecidableEq, Repr

/-- Oracle for the OS-dependent outcomes of one terminateProcess call on a
tracked handle: whether the SIGTERM and SIGKILL sends succeed, whether an
exit event fires within the respective waits, and whether the probe
process.kill(pid, 0) still finds the pid at the final verification. -/
structure OsBehavior where
  termSignalOk : Bool
  exitsWithinGrace : Bool
  killSignalOk : Bool
  exitsWithinKillWait : Bool
  pidAliveAfter : Bool
deriving DecidableEq, Repr

/-- ProcessTracker.waitForExit: resolves true when an exit event fires
within the timeout, or immediately when the synchronous check
proc.exitCode !== null || proc.killed already holds; otherwise the timer
resolves false. -/
def waitForExit (p : ProcHandle) (exitObserved : Bool) : Bool :=
  p.exitCode.isSome || p.killed || exitObserved

/-- ProcessTracker.terminateProcess on the tracked entry for a session (if
any): return true when nothing is tracked; return true when the handle
already reports killed or a non-null exitCode; otherwise send SIGTERM
(which sets killed on success), wait via waitForExit and return true if it
resolves; otherwise send SIGKILL, wait again discarding the result, and
return the negation of the OS liveness probe (verifyProcessDead). -/
def terminateProcess (tracked : Option ProcHandle) (os : OsBehavior) :
    Bool :=
  match tracked with
  | none => true
  | some p =>
    if p.killed || p.exitCode.isSome then true
    else
      let p1 := if os.termSignalOk then { p with killed := true } else p
      if waitForExit p1 os.exitsWithinGrace then true
      else
        let p2 := if os.killSignalOk then { p1 with killed := true } else p1
        let _ := waitForExit p2 os.exitsWithinKillWait
        !os.pidAliveAfter

/-- One atomic store operation on the raw_tool_events table, as the
program performs them.  The insert uses a fresh AUTOINCREMENT id.  The
worker calls markCompleted and markFailed only on rows of the batch it
claimed in the same tick; in the single reentrancy-guarded event worker
nothing else touches a claimed row in between, so at call time every row
carrying the target id is in status summarizing, which the guard
records. -/
inductive QStep (maxRetries maxLen : Nat) :
    List RawToolEvent → List RawToolEvent → Prop where
  | insert (newId sessionDbId : Nat) (csid : String)
      (data : RawToolEventInput) (now : Nat) (tbl : List RawToolEvent)
      (hfresh : newId ∉ tbl.map (fun r => r.id)) :
      QStep maxRetries maxLen tbl
        (insertRaw maxLen newId sessionDbId csid data now tbl).1
  | claim (lim : Nat) (tbl : List RawToolEvent) :
      QStep maxRetries maxLen tbl (claimBatch lim tbl).2
  | complete (id obsId now : Nat) (tbl : List RawToolEvent)
      (hcl : ∀ r ∈ tbl, r.id = id → r.status = Status.summarizing) :
      QStep maxRetries maxLen tbl (markCompleted id obsId now tbl)
  | fail (id : Nat) (msg : String) (tbl : List RawToolEvent)
      (hcl : ∀ r ∈ tbl, r.id = id → r.status = Status.summarizing) :
      QStep maxRetries maxLen tbl (markFailed maxRetries id msg tbl)
  | release (now olderThanMs : Nat) (tbl : List RawToolEvent) :
      QStep maxRetries maxLen tbl (releaseStuckEvents now olderThanMs tbl).1
  | gc (olderThanEpoch : Nat) (tbl : List RawToolEvent) :
      QStep maxRetries maxLen tbl (deleteCompleted olderThanEpoch tbl).1

/-- Tables reachable from the empty raw_tool_events table through the
store operations. -/
def ReachableQ (maxRetries maxLen : Nat) (tbl : List RawToolEvent) : Prop :=
  Relation.ReflTransGen (QStep maxRetries maxLen) [] tbl

/-- Inductive invariant of the tool-event queue: ids are unique (the id
column is the AUTOINCREMENT primary key), a failed row carries retry_count
exactly maxRetries, and every other row is strictly under the budget. -/
def RetryInv (maxRetries : Nat) (tbl : List RawToolEvent) : Prop :=
  (tbl.map (fun r => r.id)).Nodup ∧
  ∀ r ∈ tbl,
    (r.status = Status.failed → r.retry_count = maxRetries) ∧
    (r.status ≠ Status.failed → r.retry_count < maxRetries)

/-- Membership test of the duplicate-summary guard: the row counts against
a session when it sits in status pending or summarizing. -/
def inFlightFor (sid : Nat) (r : RawSummaryRequest) : Bool :=
  decide (r.session_db_id = sid) &&
    (decide (r.status = Status.pending) ||
     decide (r.status = Status.summarizing))

/-- Number of pending-or-summarizing rows of a session in the summary
queue. -/
def inFlightCount (sid : Nat) (tbl : List RawSummaryRequest) : Nat :=
  tbl.countP (inFlightFor sid)

/-- One atomic operation on the raw_summary_requests table, as the program
performs them: the guarded endpoint insert (the HTTP handler refuses the
insert when hasPendingForSession holds), the claim, the two marks (called
by the worker only on rows of its claimed batch, hence on rows in status
summarizing), and the unconditional stuck release. -/
inductive SRStep (maxRetries : Nat) :
    List RawSummaryRequest → List RawSummaryRequest → Prop where
  | insert (newId sessionDbId : Nat) (csid : String)
      (msid : Option String) (project userPrompt : String)
      (lam : Option String) (now : Nat) (tbl : List RawSummaryRequest)
      (hfresh : newId ∉ tbl.map (fun r => r.id))
      (hguard : hasPendingForSession sessionDbId tbl = false) :
      SRStep maxRetries tbl
        (insertRawSR newId sessionDbId csid msid project userPrompt lam now
          tbl).1
  | claim (lim : Nat) (tbl : List RawSummaryRequest) :
      SRStep maxRetries tbl (claimBatchSR lim tbl).2
  | complete (id sumId now : Nat) (tbl : List RawSummaryRequest)
      (hcl : ∀ r ∈ tbl, r.id = id → r.status = Status.summarizing) :
      SRStep maxRetries tbl (markCompletedSR id sumId now tbl)
  | fail (id : Nat) (msg : String) (tbl : List RawSummaryRequest)
      (hcl : ∀ r ∈ tbl, r.id = id → r.status = Status.summarizing) :
      SRStep maxRetries tbl (markFailedSR maxRetries id msg tbl)
  | release (tbl : List RawSummaryRequest) :
      SRStep maxRetries tbl (releaseStuckRequests tbl).1

/-- Tables reachable from the empty raw_summary_requests table. -/
def ReachableSR (maxRetries : Nat) (tbl : List RawSummaryRequest) : Prop :=
  Relation.ReflTransGen (SRStep maxRetries) [] tbl

/-- Concrete tool-event row builder used by witness instantiations. -/
def sampleEvent (id sid : Nat) (st : Status) (retry created : Nat) :
    RawToolEvent :=
  { id := id, session_db_id := sid, content_session_id := "cs",
    tool_name := "Read", tool_input := none, tool_response := none,
    cwd := none, prompt_number := none, project := none,
    status := st, retry_count := retry, created_at_epoch := created,
    summarized_at_epoch := none, observation_id := none,
    error_message := none }

/-- Concrete summary-request row builder used by witness
instantiations. -/
def sampleRequest (id sid : Nat) (st : Status) (retry created : Nat) :
    RawSummaryRequest :=
  { id := id, session_db_id := sid, content_session_id := "cs",
    memory_session_id := none, project := "p", user_prompt := "u",
    last_assistant_message := none, status := st, retry_count := retry,
    created_at_epoch := created, summarized_at_epoch := none,
    summary_id := none, error_message := none }

/-- Concrete three-row tool-event table used by witness
instantiations. -/
def tblW : List RawToolEvent :=
  [sampleEvent 1 7 Status.pending 0 50,
   sampleEvent 2 7 Status.pending 0 40,
   sampleEvent 3 8 Status.completed 0 30]

/-- Minimal insert payload used by witness instantiations. -/
def emptyInput : RawToolEventInput :=
  { tool_name := "Read", tool_input := none, tool_response := none,
    cwd := none, prompt_number := none, project := none }

/-- A queue state reachable from the empty table in which row 1 has
exhausted its retry budget: one insert followed by three claim-and-fail
rounds. -/
def failedChainTbl : List RawToolEvent :=
  markFailed 3 1 "e3" (claimBatch 1 (markFailed 3 1 "e2" (claimBatch 1
    (markFailed 3 1 "e1" (claimBatch 1
      (insertRaw 50000 1 7 "cs" emptyInput 100 []).1).2)).2)).2

/-- Inductive invariant of the summary queue: row ids are unique (the id
column is the AUTOINCREMENT primary key) and at most one row per session
is in flight (pending or summarizing). -/
def SRInv (tbl : List RawSummaryRequest) : Prop :=
  (tbl.map (fun s => s.id)).Nodup ∧ ∀ sid, inFlightCount sid tbl ≤ 1

/-- The cumulative effect on one row of a sequence of markCompleted calls,
given as (id, observation id) pairs: used to reshape a left fold of
markCompleted calls over the table into a single map. -/
def applyMarks (now : Nat) (pairs : List (Nat × Nat))
    (r : RawToolEvent) : RawToolEvent :=
  pairs.foldl (fun r p =>
    if r.id = p.1 then
      { r with status := Status.completed, observation_id := some p.2,
               summarized_at_epoch := some now }
    else r) r

theorem claimBatch_fst (lim : Nat) (tbl : List RawToolEvent) :
    (claimBatch lim tbl).1 =
      ((tbl.filter (fun r => r.status = Status.pending)).insertionSort
        createdLe).take lim := by
  unfold claimBatch
  simp only []
  split <;> rfl

theorem claimBatch_snd (lim : Nat) (tbl : List RawToolEvent) :
    (claimBatch lim tbl).2 =
      tbl.map (fun r =>
        if r.id ∈ (claimBatch lim tbl).1.map (fun s => s.id)
        then { r with status := Status.summarizing } else r) := by
  rw [claimBatch_fst]
  unfold claimBatch
  simp only []
  split
  case isTrue h =>
    have hb : ((tbl.filter (fun r => r.status = Status.pending)).insertionSort
        createdLe).take lim = [] := by
      simpa [List.isEmpty_iff] using h
    simp [hb]
  case isFalse h => rfl

theorem mem_claimBatch_fst {lim : Nat} {tbl : List RawToolEvent}
    {r : RawToolEvent} (h : r ∈ (claimBatch lim tbl).1) :
    r ∈ tbl ∧ r.status = Status.pending := by
  rw [claimBatch_fst] at h
  have h2 : r ∈ (tbl.filter
      (fun r => r.status = Status.pending)).insertionSort createdLe :=
    List.Sublist.mem h (List.take_sublist _ _)
  rw [List.mem_insertionSort] at h2
  have h3 := List.mem_filter.mp h2
  exact ⟨h3.1, of_decide_eq_true h3.2⟩

/-- C1: claimBatchForSummarization selects up to limit rows with status
pending ordered by created_at_epoch ascending (all pending rows when fewer
than limit are pending), atomically flips exactly the rows carrying the
selected ids to summarizing and leaves every other row unchanged, returns
the empty sequence when no row is pending, and the id sets returned by two
claim calls in sequence are disjoint (the single claim transaction
serializes concurrent callers, so concurrent claims execute as some
sequence of calls). -/
theorem claimBatch_correct (lim lim2 : Nat) (tbl : List RawToolEvent) :
    ((claimBatch lim tbl).1.length =
        min lim (tbl.filter (fun r => r.status = Status.pending)).length) ∧
    (∀ r ∈ (claimBatch lim tbl).1, r ∈ tbl ∧ r.status = Status.pending) ∧
    List.Sorted createdLe (claimBatch lim tbl).1 ∧
    (∀ i (hi : i < tbl.length),
      (claimBatch lim tbl).2[i]? =
        some (if tbl[i].id ∈ (claimBatch lim tbl).1.map (fun s => s.id)
              then { tbl[i] with status := Status.summarizing }
              else tbl[i])) ∧
    ((∀ r ∈ tbl, r.status ≠ Status.pending) → (claimBatch lim tbl).1 = []) ∧
    (∀ x ∈ (claimBatch lim tbl).1.map (fun r => r.id),
      x ∉ (claimBatch lim2 (claimBatch lim tbl).2).1.map (fun r => r.id)) := by
  refine ⟨?_, ?_, ?_, ?_, ?_, ?_⟩
  · rw [claimBatch_fst, List.length_take,
      (List.perm_insertionSort createdLe _).length_eq]
  · exact fun r hr => mem_claimBatch_fst hr
  · rw [claimBatch_fst]
    exact List.Pairwise.sublist (List.take_sublist _ _)
      (List.sorted_insertionSort createdLe _)
  · intro i hi
    rw [claimBatch_snd, List.getElem?_map, List.getElem?_eq_getElem hi]
    rfl
  · intro hnone
    rw [claimBatch_fst]
    have hf : tbl.filter (fun r => r.status = Status.pending) = [] := by
      rw [List.filter_eq_nil_iff]
      intro a ha
      simpa using hnone a ha
    rw [hf]
    simp
  · intro x hx1 hx2
    obtain ⟨b2, hb2mem, hb2id⟩ := List.mem_map.mp hx2
    have hb2 := mem_claimBatch_fst hb2mem
    rw [claimBatch_snd] at hb2
    obtain ⟨r, hr, hfr⟩ := List.mem_map.mp hb2.1
    by_cases hid : r.id ∈ (claimBatch lim tbl).1.map (fun s => s.id)
    · rw [if_pos hid] at hfr
      have hst := hb2.2
      rw [← hfr] at hst
      simp at hst
    · rw [if_neg hid] at hfr
      rw [← hfr] at hb2id
      rw [← hb2id] at hx1
      exact hid hx1

/-- Witness: claimBatch_correct applied to the concrete table tblW with
its index hypothesis discharged. -/
theorem claimBatch_correct_witness :
    (0 : Nat) < tblW.length ∧
    (claimBatch 1 tblW).2[0]? =
      some (if tblW[0].id ∈ (claimBatch 1 tblW).1.map (fun s => s.id)
            then { tblW[0] with status := Status.summarizing }
            else tblW[0]) :=
  ⟨by decide, (claimBatch_correct 1 1 tblW).2.2.2.1 0 (by decide)⟩

theorem releaseStuckEvents_getElem (now olderThanMs : Nat)
    (tbl : List RawToolEvent) {i : Nat} (hi : i < tbl.length) :
    (releaseStuckEvents now olderThanMs tbl).1[i]? =
      some (if stuckCond now olderThanMs tbl[i]
            then { tbl[i] with status := Status.pending } else tbl[i]) := by
  unfold releaseStuckEvents
  rw [List.getElem?_map, List.getElem?_eq_getElem hi]
  rfl

/-- C4: releaseStuckEvents reverts to pending exactly the rows whose
status is summarizing and whose created_at_epoch is older than
now - threshold, and changes nothing else: a matched row keeps every field
other than status (retry_count in particular), and an unmatched row is
returned verbatim.  The returned count is the number of matched rows. -/
theorem releaseStuckEvents_correct (now olderThanMs : Nat)
    (tbl : List RawToolEvent) :
    ((releaseStuckEvents now olderThanMs tbl).1.length = tbl.length) ∧
    (∀ i (hi : i < tbl.length),
      (tbl[i].status = Status.summarizing ∧
          tbl[i].created_at_epoch < now - olderThanMs →
        ∃ r, (releaseStuckEvents now olderThanMs tbl).1[i]? = some r ∧
          r.status = Status.pending ∧
          r.retry_count = tbl[i].retry_count ∧
          r.id = tbl[i].id ∧
          r.session_db_id = tbl[i].session_db_id ∧
          r.content_session_id = tbl[i].content_session_id ∧
          r.tool_name = tbl[i].tool_name ∧
          r.tool_input = tbl[i].tool_input ∧
          r.tool_response = tbl[i].tool_response ∧
          r.cwd = tbl[i].cwd ∧
          r.prompt_number = tbl[i].prompt_number ∧
          r.project = tbl[i].project ∧
          r.created_at_epoch = tbl[i].created_at_epoch ∧
          r.summarized_at_epoch = tbl[i].summarized_at_epoch ∧
          r.observation_id = tbl[i].observation_id ∧
          r.error_message = tbl[i].error_message) ∧
      (¬(tbl[i].status = Status.summarizing ∧
          tbl[i].created_at_epoch < now - olderThanMs) →
        (releaseStuckEvents now olderThanMs tbl).1[i]? = some tbl[i])) ∧
    ((releaseStuckEvents now olderThanMs tbl).2 =
      tbl.countP (fun r => decide (stuckCond now olderThanMs r))) := by
  refine ⟨by unfold releaseStuckEvents; simp, ?_, rfl⟩
  intro i hi
  constructor
  · intro hcond
    refine ⟨{ tbl[i] with status := Status.pending }, ?_,
      by simp, rfl, rfl, rfl, rfl, rfl, rfl, rfl, rfl, rfl, rfl, rfl,
      rfl, rfl, rfl⟩
    rw [releaseStuckEvents_getElem now olderThanMs tbl hi,
      if_pos (show stuckCond now olderThanMs tbl[i] from hcond)]
  · intro hcond
    rw [releaseStuckEvents_getElem now olderThanMs tbl hi,
      if_neg (show ¬ stuckCond now olderThanMs tbl[i] from hcond)]

/-- Witness: releaseStuckEvents_correct applied at a concrete state, with
a summarizing row old enough to be matched and its hypotheses
discharged. -/
theorem releaseStuckEvents_correct_witness :
    ((0 : Nat) < [sampleEvent 1 7 Status.summarizing 2 40].length) ∧
    ((sampleEvent 1 7 Status.summarizing 2 40).status =
        Status.summarizing ∧
      (sampleEvent 1 7 Status.summarizing 2 40).created_at_epoch <
        1000000 - 300000) ∧
    (∃ r, (releaseStuckEvents 1000000 300000
          [sampleEvent 1 7 Status.summarizing 2 40]).1[0]? = some r ∧
        r.status = Status.pending ∧
        r.retry_count = (sampleEvent 1 7 Status.summarizing 2 40).retry_count ∧
        r.id = (sampleEvent 1 7 Status.summarizing 2 40).id ∧
        r.session_db_id = (sampleEvent 1 7 Status.summarizing 2 40).session_db_id ∧
        r.content_session_id = (sampleEvent 1 7 Status.summarizing 2 40).content_session_id ∧
        r.tool_name = (sampleEvent 1 7 Status.summarizing 2 40).tool_name ∧
        r.tool_input = (sampleEvent 1 7 Status.summarizing 2 40).tool_input ∧
        r.tool_response = (sampleEvent 1 7 Status.summarizing 2 40).tool_response ∧
        r.cwd = (sampleEvent 1 7 Status.summarizing 2 40).cwd ∧
        r.prompt_number = (sampleEvent 1 7 Status.summarizing 2 40).prompt_number ∧
        r.project = (sampleEvent 1 7 Status.summarizing 2 40).project ∧
        r.created_at_epoch = (sampleEvent 1 7 Status.summarizing 2 40).created_at_epoch ∧
        r.summarized_at_epoch = (sampleEvent 1 7 Status.summarizing 2 40).summarized_at_epoch ∧
        r.observation_id = (sampleEvent 1 7 Status.summarizing 2 40).observation_id ∧
        r.error_message = (sampleEvent 1 7 Status.summarizing 2 40).error_message) :=
  ⟨by decide, by decide,
    ((releaseStuckEvents_correct 1000000 300000
        [sampleEvent 1 7 Status.summarizing 2 40]).2.1 0 (by decide)).1
      (by decide)⟩

/-- C5 counterexample: the event worker's startup call passes no argument,
so releaseStuckEvents runs with its default 300000 ms threshold rather
than 0.  A summarizing row created 1000 ms before startup is therefore not
released: the table is returned unchanged and the row stays summarizing,
while the claim (threshold 0, release all) requires it to be pending. -/
theorem eventWorkerStartRelease_recent_row_cex :
    (sampleEvent 1 7 Status.summarizing 0 999000).status =
        Status.summarizing ∧
    (eventWorkerStartRelease 1000000
        [sampleEvent 1 7 Status.summarizing 0 999000]).1 =
      [sampleEvent 1 7 Status.summarizing 0 999000] := by
  constructor
  · rfl
  · decide

/-- C5 amended: at event-summarizer worker startup releaseStuckEvents is
called with no argument, so the declared default threshold of 300000 ms
applies: before the polling loop begins, exactly the summarizing rows
whose created_at_epoch is older than five minutes are reverted to pending,
and a summarizing row younger than the threshold is returned verbatim and
remains summarizing. -/
theorem eventWorkerStartRelease_correct (now : Nat)
    (tbl : List RawToolEvent) :
    ((eventWorkerStartRelease now tbl).1.length = tbl.length) ∧
    (∀ i (hi : i < tbl.length),
      (tbl[i].status = Status.summarizing ∧
          tbl[i].created_at_epoch < now - 300000 →
        (eventWorkerStartRelease now tbl).1[i]? =
          some { tbl[i] with status := Status.pending }) ∧
      (¬(tbl[i].status = Status.summarizing ∧
          tbl[i].created_at_epoch < now - 300000) →
        (eventWorkerStartRelease now tbl).1[i]? = some tbl[i])) := by
  refine ⟨by unfold eventWorkerStartRelease releaseStuckEvents; simp, ?_⟩
  intro i hi
  constructor
  · intro hcond
    show (releaseStuckEvents now 300000 tbl).1[i]? = _
    rw [releaseStuckEvents_getElem now 300000 tbl hi,
      if_pos (show stuckCond now 300000 tbl[i] from hcond)]
  · intro hcond
    show (releaseStuckEvents now 300000 tbl).1[i]? = _
    rw [releaseStuckEvents_getElem now 300000 tbl hi,
      if_neg (show ¬ stuckCond now 300000 tbl[i] from hcond)]

/-- Witness: eventWorkerStartRelease_correct applied at a concrete state
in which the summarizing row is old enough to be released. -/
theorem eventWorkerStartRelease_correct_witness :
    ((0 : Nat) < [sampleEvent 1 7 Status.summarizing 2 40].length) ∧
    ((sampleEvent 1 7 Status.summarizing 2 40).status =
        Status.summarizing ∧
      (sampleEvent 1 7 Status.summarizing 2 40).created_at_epoch <
        1000000 - 300000) ∧
    (eventWorkerStartRelease 1000000
        [sampleEvent 1 7 Status.summarizing 2 40]).1[0]? =
      some { sampleEvent 1 7 Status.summarizing 2 40 with
             status := Status.pending } :=
  ⟨by decide, by decide,
    ((eventWorkerStartRelease_correct 1000000
        [sampleEvent 1 7 Status.summarizing 2 40]).2 0 (by decide)).1
      (by decide)⟩

theorem mem_markCompleted_of_ne {id obsId now : Nat}
    {tbl : List RawToolEvent} {r : RawToolEvent} (hr : r ∈ tbl)
    (hne : r.id ≠ id) : r ∈ markCompleted id obsId now tbl := by
  unfold markCompleted
  have hfix : (if r.id = id then
      { r with status := Status.completed, observation_id := some obsId,
               summarized_at_epoch := some now } else r) = r := if_neg hne
  rw [← hfix]
  exact List.mem_map_of_mem _ hr

theorem mem_markFailed_of_ne {maxRetries id : Nat} {msg : String}
    {tbl : List RawToolEvent} {r : RawToolEvent} (hr : r ∈ tbl)
    (hne : r.id ≠ id) : r ∈ markFailed maxRetries id msg tbl := by
  unfold markFailed
  simp only []
  have hfix : ∀ (st : Status) (cnt : Nat),
      (if r.id = id then
        { r with status := st, retry_count := cnt,
                 error_message := some msg } else r) = r :=
    fun _ _ => if_neg hne
  rw [← hfix]
  exact List.mem_map_of_mem _ hr

theorem mem_markSessionOutcome_of_ne {maxRetries now : Nat}
    {events : List RawToolEvent} {outcome : SessionOutcome}
    {tbl : List RawToolEvent} {r : RawToolEvent} (hr : r ∈ tbl)
    (hne : ∀ e ∈ events, r.id ≠ e.id) :
    r ∈ markSessionOutcome maxRetries now events outcome tbl := by
  cases outcome with
  | failure msg =>
    show r ∈ events.foldl (fun t e => markFailed maxRetries e.id msg t) tbl
    induction events generalizing tbl with
    | nil => exact hr
    | cons e es ih =>
      rw [List.foldl_cons]
      exact ih (mem_markFailed_of_ne hr (hne e (List.mem_cons_self e es)))
        (fun e' he' => hne e' (List.mem_cons_of_mem e he'))
  | success n ids =>
    show r ∈ (if n = 0 then _ else _)
    split
    · show r ∈ events.foldl (fun t e => markCompleted e.id 0 now t) tbl
      induction events generalizing tbl with
      | nil => exact hr
      | cons e es ih =>
        rw [List.foldl_cons]
        exact ih (mem_markCompleted_of_ne hr (hne e (List.mem_cons_self e es)))
          (fun e' he' => hne e' (List.mem_cons_of_mem e he'))
    · show r ∈ events.enum.foldl
        (fun t p => markCompleted p.2.id (obsIdFor ids p.1) now t) tbl
      have hne2 : ∀ p ∈ events.enum, r.id ≠ p.2.id := by
        intro p hp
        have : p.2 ∈ events := by
          have := List.mem_map_of_mem Prod.snd hp
          rwa [List.enum_map_snd] at this
        exact hne p.2 this
      clear hne
      generalize events.enum = ps at hne2 ⊢
      induction ps generalizing tbl with
      | nil => exact hr
      | cons p ps ih =>
        rw [List.foldl_cons]
        exact ih (mem_markCompleted_of_ne hr (hne2 p (List.mem_cons_self p ps)))
          (fun p' hp' => hne2 p' (List.mem_cons_of_mem p hp'))

theorem deleteCompleted_fst (olderThanEpoch : Nat)
    (tbl : List RawToolEvent) :
    (deleteCompleted olderThanEpoch tbl).1 =
      tbl.filter (fun r =>
        !(decide (r.status = Status.completed) &&
          (match r.summarized_at_epoch with
           | some t => decide (t < olderThanEpoch)
           | none => false))) := rfl

theorem mem_fold_sessions_of_ne {maxRetries now : Nat}
    {batch : List RawToolEvent} {oracle : Nat → SessionOutcome}
    {sids : List Nat} {tbl : List RawToolEvent} {r : RawToolEvent}
    (hr : r ∈ tbl) (hne : ∀ e ∈ batch, r.id ≠ e.id) :
    r ∈ sids.foldl (fun t sid =>
      markSessionOutcome maxRetries now (eventsForSession batch sid)
        (oracle sid) t) tbl := by
  induction sids generalizing tbl with
  | nil => exact hr
  | cons s ss ih =>
    rw [List.foldl_cons]
    refine ih (mem_markSessionOutcome_of_ne hr ?_)
    intro e he
    unfold eventsForSession at he
    exact hne e (List.mem_filter.mp he).1

/-- C6 amended: the event-summarizer worker's loop performs no release of
stuck summarizing rows on any tick (in particular not on the 30th; the
every-30th-tick release exists only in the summary worker): a row that is
in status summarizing when a tick starts is still present with every field
unchanged after the tick, whatever the tick number, batch size and oracle
outcomes.  Stuck tool-event rows are released only by the startup call
modelled by eventWorkerStartRelease. -/
theorem eventWorkerTick_never_releases
    (maxRetries batchSize now counter : Nat)
    (oracle : Nat → SessionOutcome) (tbl : List RawToolEvent)
    (hnd : (tbl.map (fun r => r.id)).Nodup)
    (r : RawToolEvent) (hr : r ∈ tbl)
    (hs : r.status = Status.summarizing) :
    r ∈ (eventWorkerTick maxRetries batchSize now counter oracle tbl).2 := by
  unfold eventWorkerTick
  simp only []
  set tbl1 := if (counter + 1) % 100 = 0
      then (deleteCompleted (now - 3600000) tbl).1 else tbl with htbl1
  have hr1 : r ∈ tbl1 := by
    rw [htbl1]
    split
    · rw [deleteCompleted_fst]
      refine List.mem_filter.mpr ⟨hr, ?_⟩
      simp [hs]
    · exact hr
  have hsub : tbl1.Sublist tbl := by
    rw [htbl1]
    split
    · rw [deleteCompleted_fst]
      exact List.filter_sublist tbl
    · exact List.Sublist.refl tbl
  have hnd1 : (tbl1.map (fun s => s.id)).Nodup :=
    List.Nodup.sublist (List.Sublist.map _ hsub) hnd
  have hnotin : r.id ∉ (claimBatch batchSize tbl1).1.map (fun s => s.id) := by
    intro hmem
    obtain ⟨b, hb, hbid⟩ := List.mem_map.mp hmem
    obtain ⟨hbt, hbp⟩ := mem_claimBatch_fst hb
    have hbr : b = r := List.inj_on_of_nodup_map hnd1 hbt hr1 hbid
    rw [hbr] at hbp
    rw [hs] at hbp
    exact Status.noConfusion hbp
  have hr2 : r ∈ (claimBatch batchSize tbl1).2 := by
    rw [claimBatch_snd]
    have hfix : (if r.id ∈ (claimBatch batchSize tbl1).1.map (fun s => s.id)
        then { r with status := Status.summarizing } else r) = r :=
      if_neg hnotin
    rw [← hfix]
    exact List.mem_map_of_mem _ hr1
  split
  · exact hr2
  · refine mem_fold_sessions_of_ne hr2 ?_
    intro e he hide
    exact hnotin (by rw [hide]; exact List.mem_map_of_mem _ he)

/-- Witness: eventWorkerTick_never_releases applied at a concrete state,
tick number 29 (so the incremented counter is 30, the tick the claim says
performs a release), with all hypotheses discharged. -/
theorem eventWorkerTick_never_releases_witness :
    (([sampleEvent 1 7 Status.summarizing 0 100,
       sampleEvent 2 7 Status.pending 0 200].map
        (fun s => s.id)).Nodup) ∧
    sampleEvent 1 7 Status.summarizing 0 100 ∈
      [sampleEvent 1 7 Status.summarizing 0 100,
       sampleEvent 2 7 Status.pending 0 200] ∧
    (sampleEvent 1 7 Status.summarizing 0 100).status =
      Status.summarizing ∧
    sampleEvent 1 7 Status.summarizing 0 100 ∈
      (eventWorkerTick 3 10 10000000 29
        (fun _ => SessionOutcome.failure "llm error")
        [sampleEvent 1 7 Status.summarizing 0 100,
         sampleEvent 2 7 Status.pending 0 200]).2 :=
  ⟨by decide, by decide, by decide,
    eventWorkerTick_never_releases 3 10 10000000 29
      (fun _ => SessionOutcome.failure "llm error")
      [sampleEvent 1 7 Status.summarizing 0 100,
       sampleEvent 2 7 Status.pending 0 200]
      (by decide) (sampleEvent 1 7 Status.summarizing 0 100)
      (by decide) (by decide)⟩

/-- C6 counterexample: a summarizing row that is stuck by any positive age
threshold (status summarizing, created long before now) is still
summarizing after the 30th tick of the event worker: the tick leaves the
one-row table unchanged, while the claim requires the 30th tick to release
it back to pending before claiming. -/
theorem eventWorkerTick_tick30_cex :
    stuckCond 10000000 300000 (sampleEvent 1 7 Status.summarizing 0 100) ∧
    (eventWorkerTick 3 10 10000000 29
        (fun _ => SessionOutcome.failure "llm error")
        [sampleEvent 1 7 Status.summarizing 0 100]).1 = 30 ∧
    (eventWorkerTick 3 10 10000000 29
        (fun _ => SessionOutcome.failure "llm error")
        [sampleEvent 1 7 Status.summarizing 0 100]).2 =
      [sampleEvent 1 7 Status.summarizing 0 100] := by
  refine ⟨⟨rfl, by decide⟩, by decide, by decide⟩

theorem find_id_of_nodup {tbl : List RawToolEvent}
    (hnd : (tbl.map (fun s => s.id)).Nodup) {r : RawToolEvent}
    (hr : r ∈ tbl) : tbl.find? (fun s => s.id = r.id) = some r := by
  induction tbl with
  | nil => cases hr
  | cons a t ih =>
    rw [List.map_cons, List.nodup_cons] at hnd
    rcases List.mem_cons.mp hr with h | h
    · subst h
      rw [List.find?_cons_of_pos _ (by simp)]
    · have hne : ¬ (a.id = r.id) := fun heq => by
        refine hnd.1 ?_
        rw [heq]
        exact List.mem_map_of_mem _ h
      rw [List.find?_cons_of_neg _ (by simpa using hne)]
      exact ih hnd.2 h

theorem markFailed_eq_of_find {maxRetries id : Nat} {msg : String}
    {tbl : List RawToolEvent} {r : RawToolEvent}
    (hfind : tbl.find? (fun s => s.id = id) = some r) :
    markFailed maxRetries id msg tbl =
      tbl.map (fun s =>
        if s.id = id then
          { s with
            status := if r.retry_count + 1 ≥ maxRetries then Status.failed
                      else Status.pending,
            retry_count := r.retry_count + 1,
            error_message := some msg }
        else s) := by
  unfold markFailed
  rw [hfind]

theorem nodup_ids_map {tbl : List RawToolEvent}
    (hnd : (tbl.map (fun s => s.id)).Nodup)
    {f : RawToolEvent → RawToolEvent} (hf : ∀ r ∈ tbl, (f r).id = r.id) :
    ((tbl.map f).map (fun s => s.id)).Nodup := by
  rw [List.map_map]
  have heq : tbl.map ((fun s => s.id) ∘ f) = tbl.map (fun s => s.id) :=
    List.map_congr_left (fun r hr => hf r hr)
  rw [heq]
  exact hnd

theorem retryInv_step {maxRetries maxLen : Nat} (hmax : 1 ≤ maxRetries)
    {t1 t2 : List RawToolEvent} (hstep : QStep maxRetries maxLen t1 t2)
    (hinv : RetryInv maxRetries t1) : RetryInv maxRetries t2 := by
  obtain ⟨hnd, hrow⟩ := hinv
  cases hstep with
  | insert newId sessionDbId csid data now tb hfresh =>
    constructor
    · rw [insertRaw]
      simp only [List.map_append, List.map_cons, List.map_nil]
      rw [List.nodup_append]
      exact ⟨hnd, List.nodup_singleton _, fun x hx hy => by
        rw [List.mem_singleton] at hy
        subst hy
        exact hfresh hx⟩
    · intro s hs
      rw [insertRaw] at hs
      rcases List.mem_append.mp hs with h | h
      · exact hrow s h
      · rw [List.mem_singleton] at h
        subst h
        exact ⟨fun hfail => Status.noConfusion hfail,
               fun _ => Nat.lt_of_lt_of_le Nat.zero_lt_one hmax⟩
  | claim lim tb =>
    constructor
    · rw [claimBatch_snd]
      refine nodup_ids_map hnd ?_
      intro r _
      by_cases hid : r.id ∈ (claimBatch lim t1).1.map (fun s => s.id)
      · rw [if_pos hid]
      · rw [if_neg hid]
    · intro s hs
      rw [claimBatch_snd] at hs
      obtain ⟨u, hu, hfu⟩ := List.mem_map.mp hs
      by_cases hid : u.id ∈ (claimBatch lim t1).1.map (fun s => s.id)
      · rw [if_pos hid] at hfu
        obtain ⟨b, hb, hbid⟩ := List.mem_map.mp hid
        obtain ⟨hbt, hbp⟩ := mem_claimBatch_fst hb
        have hbu : b = u := List.inj_on_of_nodup_map hnd hbt hu hbid
        rw [hbu] at hbp
        rw [← hfu]
        refine ⟨fun hf => Status.noConfusion hf, fun _ => ?_⟩
        show u.retry_count < maxRetries
        refine (hrow u hu).2 ?_
        rw [hbp]
        exact fun h => Status.noConfusion h
      · rw [if_neg hid] at hfu
        rw [← hfu]
        exact hrow u hu
  | complete id obsId now tb hcl =>
    constructor
    · unfold markCompleted
      refine nodup_ids_map hnd ?_
      intro r _
      by_cases hid : r.id = id
      · rw [if_pos hid]
      · rw [if_neg hid]
    · intro s hs
      unfold markCompleted at hs
      obtain ⟨u, hu, hfu⟩ := List.mem_map.mp hs
      by_cases hid : u.id = id
      · rw [if_pos hid] at hfu
        rw [← hfu]
        refine ⟨fun hf => Status.noConfusion hf, fun _ => ?_⟩
        show u.retry_count < maxRetries
        refine (hrow u hu).2 ?_
        rw [hcl u hu hid]
        exact fun h => Status.noConfusion h
      · rw [if_neg hid] at hfu
        rw [← hfu]
        exact hrow u hu
  | fail id msg tb hcl =>
    by_cases hex : ∃ u ∈ t1, u.id = id
    · obtain ⟨u, hu, huid⟩ := hex
      have hfind : t1.find? (fun s => s.id = id) = some u := by
        rw [← huid]
        exact find_id_of_nodup hnd hu
      have husum : u.status = Status.summarizing := hcl u hu huid
      have hult : u.retry_count < maxRetries := by
        refine (hrow u hu).2 ?_
        rw [husum]
        exact fun h => Status.noConfusion h
      rw [markFailed_eq_of_find hfind]
      constructor
      · refine nodup_ids_map hnd ?_
        intro r _
        by_cases hid : r.id = id
        · rw [if_pos hid]
        · rw [if_neg hid]
      · intro s hs
        obtain ⟨v, hv, hfv⟩ := List.mem_map.mp hs
        by_cases hid : v.id = id
        · rw [if_pos hid] at hfv
          rw [← hfv]
          by_cases hge : u.retry_count + 1 ≥ maxRetries
          · rw [if_pos hge]
            exact ⟨fun _ => Nat.le_antisymm (Nat.succ_le_of_lt hult) hge,
                   fun hne => absurd rfl hne⟩
          · rw [if_neg hge]
            exact ⟨fun hf => Status.noConfusion hf,
                   fun _ => Nat.lt_of_not_le hge⟩
        · rw [if_neg hid] at hfv
          rw [← hfv]
          exact hrow v hv
    · push_neg at hex
      have hmf : markFailed maxRetries id msg t1 = t1 := by
        unfold markFailed
        simp only []
        refine Eq.trans (List.map_congr_left ?_) (List.map_id' t1)
        intro v hv
        rw [if_neg (fun h => hex v hv h)]
      rw [hmf]
      exact ⟨hnd, hrow⟩
  | release now olderThanMs tb =>
    constructor
    · unfold releaseStuckEvents
      refine nodup_ids_map hnd ?_
      intro r _
      by_cases hc : stuckCond now olderThanMs r
      · rw [if_pos hc]
      · rw [if_neg hc]
    · intro s hs
      unfold releaseStuckEvents at hs
      obtain ⟨u, hu, hfu⟩ := List.mem_map.mp hs
      by_cases hc : stuckCond now olderThanMs u
      · rw [if_pos hc] at hfu
        rw [← hfu]
        refine ⟨fun hf => Status.noConfusion hf, fun _ => ?_⟩
        show u.retry_count < maxRetries
        refine (hrow u hu).2 ?_
        rw [hc.1]
        exact fun h => Status.noConfusion h
      · rw [if_neg hc] at hfu
        rw [← hfu]
        exact hrow u hu
  | gc olderThanEpoch tb =>
    constructor
    · rw [deleteCompleted_fst]
      exact List.Nodup.sublist
        (List.Sublist.map _ (List.filter_sublist t1)) hnd
    · intro s hs
      rw [deleteCompleted_fst] at hs
      exact hrow s (List.mem_filter.mp hs).1

theorem retryInv_reachable {maxRetries maxLen : Nat} (hmax : 1 ≤ maxRetries)
    {tbl : List RawToolEvent} (h : ReachableQ maxRetries maxLen tbl) :
    RetryInv maxRetries tbl := by
  unfold ReachableQ at h
  induction h with
  | refl => exact ⟨by simp, fun r hr => absurd hr (List.not_mem_nil r)⟩
  | tail hsteps hstep ih => exact retryInv_step hmax hstep ih

/-- C2: for a row r present in the tool-event queue, markFailed (r.id,
msg) produces a table of the same length containing the row r updated
with retry_count incremented by exactly one and the error message
recorded, failed when the incremented count reaches maxRetries and
pending otherwise; every row with a different id passes through
unchanged; the configured default of maxRetries is 3; and in every queue
state reachable through the store operations every failed row carries
retry_count exactly maxRetries. -/
theorem markFailed_correct (maxRetries : Nat) (hmax : 1 ≤ maxRetries)
    (tbl : List RawToolEvent) (hnd : (tbl.map (fun s => s.id)).Nodup)
    (r : RawToolEvent) (hr : r ∈ tbl) (msg : String) :
    ((markFailed maxRetries r.id msg tbl).length = tbl.length) ∧
    (∃ s ∈ markFailed maxRetries r.id msg tbl,
       s.id = r.id ∧
       s.retry_count = r.retry_count + 1 ∧
       s.error_message = some msg ∧
       (maxRetries ≤ r.retry_count + 1 → s.status = Status.failed) ∧
       (r.retry_count + 1 < maxRetries → s.status = Status.pending)) ∧
    (∀ s ∈ tbl, s.id ≠ r.id → s ∈ markFailed maxRetries r.id msg tbl) ∧
    (defaultMaxRetries = 3) ∧
    (∀ maxLen tbl2, ReachableQ maxRetries maxLen tbl2 →
      ∀ s ∈ tbl2, s.status = Status.failed → s.retry_count = maxRetries) := by
  have hfind : tbl.find? (fun s => s.id = r.id) = some r :=
    find_id_of_nodup hnd hr
  refine ⟨?_, ?_, ?_, rfl, ?_⟩
  · rw [markFailed_eq_of_find hfind]
    simp
  · rw [markFailed_eq_of_find hfind]
    refine ⟨{ r with
        status := if r.retry_count + 1 ≥ maxRetries then Status.failed
                  else Status.pending,
        retry_count := r.retry_count + 1,
        error_message := some msg }, ?_, rfl, rfl, rfl, ?_, ?_⟩
    · have : (if r.id = r.id then
          { r with
            status := if r.retry_count + 1 ≥ maxRetries then Status.failed
                      else Status.pending,
            retry_count := r.retry_count + 1,
            error_message := some msg }
          else r) =
          { r with
            status := if r.retry_count + 1 ≥ maxRetries then Status.failed
                      else Status.pending,
            retry_count := r.retry_count + 1,
            error_message := some msg } := if_pos rfl
      rw [← this]
      exact List.mem_map_of_mem _ hr
    · intro hge
      simp only [ge_iff_le, if_pos hge]
    · intro hlt
      simp only [ge_iff_le, if_neg (Nat.not_le_of_lt hlt)]
  · intro s hs hne
    exact mem_markFailed_of_ne hs hne
  · intro maxLen tbl2 hreach s hs hf
    exact ((retryInv_reachable hmax hreach).2 s hs).1 hf

/-- Witness: markFailed_correct applied at a concrete one-row queue, and
its reachable-state corollary applied to failedChainTbl, a state built
from the empty table by one insert and three claim-and-fail rounds, whose
row is failed with retry_count exactly 3. -/
theorem markFailed_correct_witness :
    ((1 : Nat) ≤ 3) ∧
    (([sampleEvent 5 7 Status.summarizing 2 40].map (fun s => s.id)).Nodup) ∧
    (sampleEvent 5 7 Status.summarizing 2 40 ∈
      [sampleEvent 5 7 Status.summarizing 2 40]) ∧
    (∃ s ∈ markFailed 3 (sampleEvent 5 7 Status.summarizing 2 40).id "boom"
        [sampleEvent 5 7 Status.summarizing 2 40],
       s.id = (sampleEvent 5 7 Status.summarizing 2 40).id ∧
       s.retry_count =
         (sampleEvent 5 7 Status.summarizing 2 40).retry_count + 1 ∧
       s.error_message = some "boom" ∧
       (3 ≤ (sampleEvent 5 7 Status.summarizing 2 40).retry_count + 1 →
         s.status = Status.failed) ∧
       ((sampleEvent 5 7 Status.summarizing 2 40).retry_count + 1 < 3 →
         s.status = Status.pending)) ∧
    (∃ s ∈ failedChainTbl,
       s.status = Status.failed ∧ s.retry_count = 3) ∧
    (∀ s ∈ failedChainTbl, s.status = Status.failed →
       s.retry_count = 3) := by
  refine ⟨by decide, by decide, by decide,
    (markFailed_correct 3 (by decide) _ (by decide) _ (by decide)
      "boom").2.1,
    by decide, ?_⟩
  have hreach : ReachableQ 3 50000 failedChainTbl :=
    Relation.ReflTransGen.tail (Relation.ReflTransGen.tail
      (Relation.ReflTransGen.tail (Relation.ReflTransGen.tail
        (Relation.ReflTransGen.tail (Relation.ReflTransGen.tail
          (Relation.ReflTransGen.tail Relation.ReflTransGen.refl
            (QStep.insert 1 7 "cs" emptyInput 100 [] (by decide)))
          (QStep.claim 1 _))
        (QStep.fail 1 "e1" _ (by decide)))
      (QStep.claim 1 _))
      (QStep.fail 1 "e2" _ (by decide)))
    (QStep.claim 1 _))
    (QStep.fail 1 "e3" _ (by decide))
  exact (markFailed_correct 3 (by decide)
    [sampleEvent 5 7 Status.summarizing 2 40] (by decide)
    (sampleEvent 5 7 Status.summarizing 2 40) (by decide)
    "boom").2.2.2.2 50000 failedChainTbl hreach

theorem strTake_length (s : String) (n : Nat) :
    (strTake s n).length = min n s.length := by
  show (s.data.take n).length = min n s.length
  rw [List.length_take]
  rfl

/-- C3 amended: insertRaw appends exactly one new row, and that row has
status pending, retry_count 0 and created_at_epoch now; a serialized
tool_response longer than maxLen characters is stored as its first maxLen
characters followed by the truncation marker, so the stored length is
maxLen plus the marker length (15) with the marker at the end; a non-empty
tool_response of at most maxLen characters is stored unchanged; an
empty-string tool_response, however, is falsy in the JavaScript truthiness
test and is stored as NULL, as is an absent one.  The constructor default
for maxLen is 50000. -/
theorem insertRaw_correct (maxLen newId sessionDbId now : Nat)
    (csid : String) (data : RawToolEventInput) (tbl : List RawToolEvent) :
    (∃ row, (insertRaw maxLen newId sessionDbId csid data now tbl).1 =
        tbl ++ [row] ∧
      row.status = Status.pending ∧
      row.retry_count = 0 ∧
      row.created_at_epoch = now ∧
      (∀ s, data.tool_response = some s → s.length > maxLen →
        row.tool_response = some (strTake s maxLen ++ truncMarker) ∧
        (∃ t, row.tool_response = some (t ++ truncMarker) ∧
          t.length = maxLen) ∧
        (∀ u, row.tool_response = some u →
          u.length = maxLen + truncMarker.length)) ∧
      (∀ s, data.tool_response = some s → 0 < s.length →
        s.length ≤ maxLen → row.tool_response = some s) ∧
      (data.tool_response = some "" → row.tool_response = none) ∧
      (data.tool_response = none → row.tool_response = none)) ∧
    truncMarker.length = 15 ∧
    defaultMaxResponseLength = 50000 := by
  refine ⟨?_, by decide, rfl⟩
  refine ⟨_, rfl, rfl, rfl, rfl, ?_, ?_, ?_, ?_⟩
  · intro s hs hlen
    have htr : truncateResponse maxLen data.tool_response =
        some (strTake s maxLen ++ truncMarker) := by
      rw [hs]
      simp only [truncateResponse]
      rw [if_neg (show ¬ s.length = 0 by omega), if_pos hlen]
    refine ⟨htr, ⟨strTake s maxLen, htr, ?_⟩, ?_⟩
    · rw [strTake_length]
      omega
    · intro u hu
      rw [htr] at hu
      cases hu
      rw [String.length_append, strTake_length]
      have hm : min maxLen s.length = maxLen := by omega
      rw [hm]
  · intro s hs hpos hle
    show truncateResponse maxLen data.tool_response = some s
    rw [hs]
    simp only [truncateResponse]
    rw [if_neg (show ¬ s.length = 0 by omega),
      if_neg (show ¬ s.length > maxLen by omega)]
  · intro hs
    show truncateResponse maxLen data.tool_response = none
    rw [hs]
    simp only [truncateResponse]
    rw [if_pos (show String.length "" = 0 from rfl)]
  · intro hs
    show truncateResponse maxLen data.tool_response = none
    rw [hs]
    rfl

/-- Witness: insertRaw_correct applied with maxLen 3 and the oversized
response "abcde", extracting the truncated stored value. -/
theorem insertRaw_correct_witness :
    ("abcde".length > 3) ∧
    (∃ row, (insertRaw 3 1 7 "cs"
        { emptyInput with tool_response := some "abcde" } 100 []).1 =
        [] ++ [row] ∧
      row.status = Status.pending ∧ row.retry_count = 0 ∧
      row.tool_response = some (strTake "abcde" 3 ++ truncMarker)) := by
  refine ⟨by decide, ?_⟩
  obtain ⟨⟨row, heq, hst, hrc, _, htr, _, _, _⟩, _, _⟩ :=
    insertRaw_correct 3 1 7 100 "cs"
      { emptyInput with tool_response := some "abcde" } []
  exact ⟨row, heq, hst, hrc, (htr "abcde" rfl (by decide)).1⟩

/-- C3 counterexample: an empty-string tool_response (length 0, hence at
most 50000 characters) is not stored unchanged: the single inserted row
stores NULL for tool_response, because the JavaScript truthiness test
treats the empty string as absent. -/
theorem insertRaw_empty_response_cex :
    ("".length ≤ 50000) ∧
    ∀ r ∈ (insertRaw 50000 1 7 "cs"
        { emptyInput with tool_response := some "" } 100 []).1,
      r.tool_response = none ∧ r.tool_response ≠ some "" := by decide

theorem claimBatchSR_fst (lim : Nat) (tbl : List RawSummaryRequest) :
    (claimBatchSR lim tbl).1 =
      ((tbl.filter (fun r => r.status = Status.pending)).insertionSort
        createdLeSR).take lim := by
  unfold claimBatchSR
  simp only []
  split <;> rfl

theorem claimBatchSR_snd (lim : Nat) (tbl : List RawSummaryRequest) :
    (claimBatchSR lim tbl).2 =
      tbl.map (fun r =>
        if r.id ∈ (claimBatchSR lim tbl).1.map (fun s => s.id)
        then { r with status := Status.summarizing } else r) := by
  rw [claimBatchSR_fst]
  unfold claimBatchSR
  simp only []
  split
  case isTrue h =>
    have hb : ((tbl.filter
        (fun r => r.status = Status.pending)).insertionSort
        createdLeSR).take lim = [] := by
      simpa [List.isEmpty_iff] using h
    simp [hb]
  case isFalse h => rfl

theorem mem_claimBatchSR_fst {lim : Nat} {tbl : List RawSummaryRequest}
    {r : RawSummaryRequest} (h : r ∈ (claimBatchSR lim tbl).1) :
    r ∈ tbl ∧ r.status = Status.pending := by
  rw [claimBatchSR_fst] at h
  have h2 : r ∈ (tbl.filter
      (fun r => r.status = Status.pending)).insertionSort createdLeSR :=
    List.Sublist.mem h (List.take_sublist _ _)
  rw [List.mem_insertionSort] at h2
  have h3 := List.mem_filter.mp h2
  exact ⟨h3.1, of_decide_eq_true h3.2⟩

theorem nodup_ids_mapSR {tbl : List RawSummaryRequest}
    (hnd : (tbl.map (fun s => s.id)).Nodup)
    {f : RawSummaryRequest → RawSummaryRequest}
    (hf : ∀ r ∈ tbl, (f r).id = r.id) :
    ((tbl.map f).map (fun s => s.id)).Nodup := by
  rw [List.map_map]
  have heq : tbl.map ((fun s => s.id) ∘ f) = tbl.map (fun s => s.id) :=
    List.map_congr_left (fun r hr => hf r hr)
  rw [heq]
  exact hnd

theorem hasPendingForSession_eq (sid : Nat) (tbl : List RawSummaryRequest) :
    hasPendingForSession sid tbl = decide (0 < inFlightCount sid tbl) := rfl

theorem inFlightCount_insertRawSR (sid newId sessionDbId : Nat)
    (csid : String) (msid : Option String) (project userPrompt : String)
    (lam : Option String) (now : Nat) (tbl : List RawSummaryRequest) :
    inFlightCount sid (insertRawSR newId sessionDbId csid msid project
        userPrompt lam now tbl).1 =
      inFlightCount sid tbl + (if sessionDbId = sid then 1 else 0) := by
  unfold insertRawSR inFlightCount
  rw [List.countP_append]
  congr 1
  by_cases h : sessionDbId = sid
  · rw [if_pos h]
    simp [List.countP_cons, inFlightFor, h]
  · rw [if_neg h]
    simp [List.countP_cons, inFlightFor, h]

theorem srInv_step {maxRetries : Nat} {t1 t2 : List RawSummaryRequest}
    (hstep : SRStep maxRetries t1 t2) (hinv : SRInv t1) : SRInv t2 := by
  obtain ⟨hnd, hcnt⟩ := hinv
  cases hstep with
  | insert newId sessionDbId csid msid project userPrompt lam now tb
      hfresh hguard =>
    constructor
    · rw [insertRawSR]
      simp only [List.map_append, List.map_cons, List.map_nil]
      rw [List.nodup_append]
      exact ⟨hnd, List.nodup_singleton _, fun x hx hy => by
        rw [List.mem_singleton] at hy
        subst hy
        exact hfresh hx⟩
    · intro sid
      rw [inFlightCount_insertRawSR]
      by_cases hsid : sessionDbId = sid
      · rw [if_pos hsid]
        subst hsid
        have h0 : inFlightCount sessionDbId t1 = 0 := by
          rw [hasPendingForSession_eq] at hguard
          have hneg := of_decide_eq_false hguard
          omega
        omega
      · rw [if_neg hsid]
        have := hcnt sid
        omega
  | claim lim tb =>
    constructor
    · rw [claimBatchSR_snd]
      refine nodup_ids_mapSR hnd ?_
      intro r _
      by_cases hid : r.id ∈ (claimBatchSR lim t1).1.map (fun s => s.id)
      · rw [if_pos hid]
      · rw [if_neg hid]
    · intro sid
      rw [claimBatchSR_snd]
      unfold inFlightCount
      rw [List.countP_map]
      have heq : t1.countP (inFlightFor sid ∘ fun r =>
          if r.id ∈ (claimBatchSR lim t1).1.map (fun s => s.id)
          then { r with status := Status.summarizing } else r) =
          t1.countP (inFlightFor sid) := by
        refine List.countP_congr ?_
        intro r hr
        by_cases hid : r.id ∈ (claimBatchSR lim t1).1.map (fun s => s.id)
        · obtain ⟨b, hb, hbid⟩ := List.mem_map.mp hid
          obtain ⟨hbt, hbp⟩ := mem_claimBatchSR_fst hb
          have hbr : b = r := List.inj_on_of_nodup_map hnd hbt hr hbid
          rw [hbr] at hbp
          simp only [Function.comp]
          rw [if_pos hid]
          simp [inFlightFor, hbp]
        · simp only [Function.comp]
          rw [if_neg hid]
      rw [heq]
      exact hcnt sid
  | complete id sumId now tb hcl =>
    constructor
    · unfold markCompletedSR
      refine nodup_ids_mapSR hnd ?_
      intro r _
      by_cases hid : r.id = id
      · rw [if_pos hid]
      · rw [if_neg hid]
    · intro sid
      unfold markCompletedSR inFlightCount
      rw [List.countP_map]
      refine Nat.le_trans (Nat.le_of_eq rfl) (Nat.le_trans ?_ (hcnt sid))
      refine List.countP_mono_left ?_
      intro r hr hp
      by_cases hid : r.id = id
      · exfalso
        simp only [Function.comp] at hp
        rw [if_pos hid] at hp
        simp [inFlightFor] at hp
      · simp only [Function.comp] at hp
        rw [if_neg hid] at hp
        exact hp
  | fail id msg tb hcl =>
    constructor
    · unfold markFailedSR
      simp only []
      refine nodup_ids_mapSR hnd ?_
      intro r _
      by_cases hid : r.id = id
      · rw [if_pos hid]
      · rw [if_neg hid]
    · intro sid
      unfold markFailedSR inFlightCount
      simp only []
      rw [List.countP_map]
      refine Nat.le_trans ?_ (hcnt sid)
      refine List.countP_mono_left ?_
      intro r hr hp
      by_cases hid : r.id = id
      · have hsum : r.status = Status.summarizing := hcl r hr hid
        simp only [Function.comp] at hp
        rw [if_pos hid] at hp
        unfold inFlightFor at hp ⊢
        rw [hsum]
        simp only [Bool.and_eq_true, Bool.or_eq_true,
          decide_eq_true_iff] at hp ⊢
        exact ⟨hp.1, Or.inr trivial⟩
      · simp only [Function.comp] at hp
        rw [if_neg hid] at hp
        exact hp
  | release tb =>
    constructor
    · unfold releaseStuckRequests
      refine nodup_ids_mapSR hnd ?_
      intro r _
      by_cases hc : r.status = Status.summarizing
      · rw [if_pos hc]
      · rw [if_neg hc]
    · intro sid
      unfold releaseStuckRequests inFlightCount
      rw [List.countP_map]
      have heq : t1.countP (inFlightFor sid ∘ fun r =>
          if r.status = Status.summarizing
          then { r with status := Status.pending } else r) =
          t1.countP (inFlightFor sid) := by
        refine List.countP_congr ?_
        intro r hr
        by_cases hc : r.status = Status.summarizing
        · simp only [Function.comp]
          rw [if_pos hc]
          simp [inFlightFor, hc]
        · simp only [Function.comp]
          rw [if_neg hc]
      rw [heq]
      exact hcnt sid

theorem srInv_reachable {maxRetries : Nat} {tbl : List RawSummaryRequest}
    (h : ReachableSR maxRetries tbl) : SRInv tbl := by
  unfold ReachableSR at h
  induction h with
  | refl => exact ⟨by simp, fun sid => by simp [inFlightCount]⟩
  | tail hsteps hstep ih => exact srInv_step hstep ih

theorem hasPending_iff (sid : Nat) (tbl : List RawSummaryRequest) :
    hasPendingForSession sid tbl = true ↔
      ∃ r ∈ tbl, r.session_db_id = sid ∧
        (r.status = Status.pending ∨ r.status = Status.summarizing) := by
  rw [hasPendingForSession_eq, decide_eq_true_iff]
  unfold inFlightCount
  rw [List.countP_pos_iff]
  unfold inFlightFor
  simp

/-- C7: inserting a RawSummaryRequest through the summary endpoint is
rejected (no row is queued) exactly when another row for the same
session_db_id is already in status pending or summarizing, the check being
performed at insert time via hasPendingForSession; otherwise the insert is
delegated to insertRaw on the summary queue; consequently, in every queue
state reachable through the guarded operations, at most one row per
session_db_id is in status pending or summarizing. -/
theorem summaryGuard_correct (maxRetries : Nat) :
    (∀ (newId sessionDbId : Nat) (csid : String) (msid : Option String)
        (project userPrompt : String) (lam : Option String) (now : Nat)
        (tbl : List RawSummaryRequest),
      ((∃ r ∈ tbl, r.session_db_id = sessionDbId ∧
          (r.status = Status.pending ∨ r.status = Status.summarizing)) →
        summaryEndpointInsert newId sessionDbId csid msid project
          userPrompt lam now tbl = none) ∧
      (¬(∃ r ∈ tbl, r.session_db_id = sessionDbId ∧
          (r.status = Status.pending ∨ r.status = Status.summarizing)) →
        summaryEndpointInsert newId sessionDbId csid msid project
          userPrompt lam now tbl =
          some (insertRawSR newId sessionDbId csid msid project
            userPrompt lam now tbl))) ∧
    (∀ tbl, ReachableSR maxRetries tbl →
      ∀ sid, inFlightCount sid tbl ≤ 1) := by
  refine ⟨?_, ?_⟩
  · intro newId sessionDbId csid msid project userPrompt lam now tbl
    constructor
    · intro hex
      unfold summaryEndpointInsert
      rw [if_pos ((hasPending_iff sessionDbId tbl).mpr hex)]
    · intro hnex
      unfold summaryEndpointInsert
      rw [if_neg (fun h => hnex ((hasPending_iff sessionDbId tbl).mp h))]
  · intro tbl hreach sid
    exact (srInv_reachable hreach).2 sid

/-- Witness: summaryGuard_correct applied at concrete states: a duplicate
insert for session 42 is rejected, and the state reached by one accepted
insert satisfies the at-most-one-in-flight bound. -/
theorem summaryGuard_correct_witness :
    (∃ r ∈ [sampleRequest 1 42 Status.pending 0 50],
       r.session_db_id = 42 ∧
       (r.status = Status.pending ∨ r.status = Status.summarizing)) ∧
    (summaryEndpointInsert 2 42 "cs" none "p" "u" none 100
        [sampleRequest 1 42 Status.pending 0 50] = none) ∧
    (∀ sid, inFlightCount sid
        (insertRawSR 1 42 "cs" none "p" "u" none 100 []).1 ≤ 1) := by
  refine ⟨by decide, ?_, ?_⟩
  · exact ((summaryGuard_correct 3).1 2 42 "cs" none "p" "u" none 100
      [sampleRequest 1 42 Status.pending 0 50]).1 (by decide)
  · exact (summaryGuard_correct 3).2
      (insertRawSR 1 42 "cs" none "p" "u" none 100 []).1
      (Relation.ReflTransGen.tail Relation.ReflTransGen.refl
        (SRStep.insert 1 42 "cs" none "p" "u" none 100 [] (by decide)
          (by decide)))

theorem releaseStuckRequests_getElem (tbl : List RawSummaryRequest)
    {i : Nat} (hi : i < tbl.length) :
    (releaseStuckRequests tbl).1[i]? =
      some (if tbl[i].status = Status.summarizing
            then { tbl[i] with status := Status.pending } else tbl[i]) := by
  unfold releaseStuckRequests
  rw [List.getElem?_map, List.getElem?_eq_getElem hi]
  rfl

theorem release_no_summarizing (tbl : List RawSummaryRequest) :
    ∀ r ∈ (releaseStuckRequests tbl).1,
      r.status ≠ Status.summarizing := by
  intro r hr
  unfold releaseStuckRequests at hr
  obtain ⟨u, _, hfu⟩ := List.mem_map.mp hr
  by_cases hc : u.status = Status.summarizing
  · rw [if_pos hc] at hfu
    rw [← hfu]
    exact fun h => Status.noConfusion h
  · rw [if_neg hc] at hfu
    rw [← hfu]
    exact hc

theorem claimSR_summarizing_sub {lim : Nat} {tbl : List RawSummaryRequest}
    (hns : ∀ r ∈ tbl, r.status ≠ Status.summarizing) :
    ∀ r ∈ (claimBatchSR lim tbl).2, r.status = Status.summarizing →
      r.id ∈ (claimBatchSR lim tbl).1.map (fun s => s.id) := by
  intro r hr hs
  rw [claimBatchSR_snd] at hr
  obtain ⟨u, hu, hfu⟩ := List.mem_map.mp hr
  by_cases hid : u.id ∈ (claimBatchSR lim tbl).1.map (fun s => s.id)
  · rw [if_pos hid] at hfu
    rw [← hfu]
    exact hid
  · rw [if_neg hid] at hfu
    rw [← hfu] at hs
    exact absurd hs (hns u hu)

theorem processRequest_summarizing {maxRetries now : Nat}
    {oracle : Nat → RequestOutcome} {tbl : List RawSummaryRequest}
    {q r : RawSummaryRequest}
    (hr : r ∈ processRequest maxRetries now oracle tbl q)
    (hs : r.status = Status.summarizing) : r ∈ tbl ∧ r.id ≠ q.id := by
  unfold processRequest at hr
  cases horacle : oracle q.id with
  | success sumId =>
    rw [horacle] at hr
    unfold markCompletedSR at hr
    obtain ⟨u, hu, hfu⟩ := List.mem_map.mp hr
    by_cases hid : u.id = q.id
    · rw [if_pos hid] at hfu
      rw [← hfu] at hs
      exact absurd hs (fun h => Status.noConfusion h)
    · rw [if_neg hid] at hfu
      rw [← hfu]
      exact ⟨hu, hid⟩
  | failure msg =>
    rw [horacle] at hr
    unfold markFailedSR at hr
    simp only [] at hr
    obtain ⟨u, hu, hfu⟩ := List.mem_map.mp hr
    by_cases hid : u.id = q.id
    · rw [if_pos hid] at hfu
      rw [← hfu] at hs
      exfalso
      by_cases hge : (match tbl.find? (fun s => s.id = q.id) with
          | some e => e.retry_count
          | none => 0) + 1 ≥ maxRetries
      · rw [if_pos hge] at hs
        exact Status.noConfusion hs
      · rw [if_neg hge] at hs
        exact Status.noConfusion hs
    · rw [if_neg hid] at hfu
      rw [← hfu]
      exact ⟨hu, hid⟩

theorem fold_process_no_summarizing {maxRetries now : Nat}
    {oracle : Nat → RequestOutcome} (reqs : List RawSummaryRequest)
    (tbl : List RawSummaryRequest)
    (hsub : ∀ r ∈ tbl, r.status = Status.summarizing →
      r.id ∈ reqs.map (fun s => s.id)) :
    ∀ r ∈ reqs.foldl (processRequest maxRetries now oracle) tbl,
      r.status ≠ Status.summarizing := by
  induction reqs generalizing tbl with
  | nil =>
    intro r hr hs
    simpa using hsub r hr hs
  | cons q qs ih =>
    intro r hr
    rw [List.foldl_cons] at hr
    refine ih (processRequest maxRetries now oracle tbl q) ?_ r hr
    intro u hu hus
    obtain ⟨hut, huid⟩ := processRequest_summarizing hu hus
    have := hsub u hut hus
    rw [List.map_cons, List.mem_cons] at this
    rcases this with h | h
    · exact absurd h huid
    · exact h

/-- C10: releaseStuckRequests reverts every summarizing row to pending
unconditionally — its condition mentions only the status column, no age
threshold and no created_at_epoch comparison — leaves every other field of
every row unchanged, returns the number of changed rows, and the summary
worker invokes this unconditional release both at startup (after which no
row is summarizing) and on every 30th processed tick (after which no row
of the resulting table is summarizing, every claimed request having been
marked). -/
theorem releaseStuckRequests_correct
    (counter maxRetries batchSize now : Nat)
    (oracle : Nat → RequestOutcome) (tbl : List RawSummaryRequest) :
    (∀ i (hi : i < tbl.length),
      (tbl[i].status = Status.summarizing →
        ∃ r, (releaseStuckRequests tbl).1[i]? = some r ∧
          r.status = Status.pending ∧
          r.retry_count = tbl[i].retry_count ∧
          r.id = tbl[i].id ∧
          r.session_db_id = tbl[i].session_db_id ∧
          r.content_session_id = tbl[i].content_session_id ∧
          r.memory_session_id = tbl[i].memory_session_id ∧
          r.project = tbl[i].project ∧
          r.user_prompt = tbl[i].user_prompt ∧
          r.last_assistant_message = tbl[i].last_assistant_message ∧
          r.created_at_epoch = tbl[i].created_at_epoch ∧
          r.summarized_at_epoch = tbl[i].summarized_at_epoch ∧
          r.summary_id = tbl[i].summary_id ∧
          r.error_message = tbl[i].error_message) ∧
      (tbl[i].status ≠ Status.summarizing →
        (releaseStuckRequests tbl).1[i]? = some tbl[i])) ∧
    ((releaseStuckRequests tbl).2 =
      tbl.countP (fun r => decide (r.status = Status.summarizing))) ∧
    (∀ r ∈ (summaryWorkerStartRelease tbl).1,
      r.status ≠ Status.summarizing) ∧
    ((counter + 1) % 30 = 0 →
      ∀ r ∈ (summaryWorkerTick maxRetries batchSize now counter oracle
        tbl).2, r.status ≠ Status.summarizing) := by
  refine ⟨?_, rfl, ?_, ?_⟩
  · intro i hi
    constructor
    · intro hcond
      refine ⟨{ tbl[i] with status := Status.pending }, ?_, by simp, rfl,
        rfl, rfl, rfl, rfl, rfl, rfl, rfl, rfl, rfl, rfl, rfl⟩
      rw [releaseStuckRequests_getElem tbl hi, if_pos hcond]
    · intro hcond
      rw [releaseStuckRequests_getElem tbl hi, if_neg hcond]
  · show ∀ r ∈ (releaseStuckRequests tbl).1, r.status ≠ Status.summarizing
    exact release_no_summarizing tbl
  · intro hc r hr
    unfold summaryWorkerTick at hr
    simp only [] at hr
    rw [if_pos hc] at hr
    set rel := (releaseStuckRequests tbl).1 with hrel
    have hns : ∀ u ∈ rel, u.status ≠ Status.summarizing :=
      release_no_summarizing tbl
    by_cases hempty : (claimBatchSR batchSize rel).1.isEmpty
    · rw [if_pos hempty] at hr
      intro hs
      have hin := claimSR_summarizing_sub hns r hr hs
      rw [List.isEmpty_iff] at hempty
      rw [hempty] at hin
      simp at hin
    · rw [if_neg hempty] at hr
      exact fold_process_no_summarizing (claimBatchSR batchSize rel).1
        (claimBatchSR batchSize rel).2
        (claimSR_summarizing_sub hns) r hr

/-- Witness: releaseStuckRequests_correct applied at a concrete one-row
table with a summarizing row, on the 30th processed tick. -/
theorem releaseStuckRequests_correct_witness :
    ((29 + 1) % 30 = 0) ∧
    (∀ r ∈ (summaryWorkerTick 3 5 1000 29
        (fun _ => RequestOutcome.failure "e")
        [sampleRequest 1 42 Status.summarizing 1 40]).2,
      r.status ≠ Status.summarizing) ∧
    ((releaseStuckRequests
        [sampleRequest 1 42 Status.summarizing 1 40]).2 = 1) := by
  refine ⟨by decide,
    (releaseStuckRequests_correct 29 3 5 1000
      (fun _ => RequestOutcome.failure "e")
      [sampleRequest 1 42 Status.summarizing 1 40]).2.2.2 (by decide), ?_⟩
  rw [(releaseStuckRequests_correct 29 3 5 1000
      (fun _ => RequestOutcome.failure "e")
      [sampleRequest 1 42 Status.summarizing 1 40]).2.1]
  decide

theorem foldMark_eq_map (pairs : List (Nat × Nat)) (now : Nat)
    (tbl : List RawToolEvent) :
    pairs.foldl (fun t p => markCompleted p.1 p.2 now t) tbl =
      tbl.map (applyMarks now pairs) := by
  induction pairs generalizing tbl with
  | nil =>
    rw [List.foldl_nil]
    exact (List.map_id' tbl).symm
  | cons p ps ih =>
    rw [List.foldl_cons, ih (markCompleted p.1 p.2 now tbl)]
    unfold markCompleted
    rw [List.map_map]
    refine List.map_congr_left ?_
    intro r _
    simp only [Function.comp, applyMarks, List.foldl_cons]

theorem applyMarks_id (now : Nat) (pairs : List (Nat × Nat))
    (r : RawToolEvent) : (applyMarks now pairs r).id = r.id := by
  induction pairs generalizing r with
  | nil => rfl
  | cons p ps ih =>
    unfold applyMarks
    rw [List.foldl_cons]
    show (applyMarks now ps _).id = r.id
    rw [ih]
    by_cases h : r.id = p.1
    · rw [if_pos h]
    · rw [if_neg h]

theorem applyMarks_skip (now : Nat) (pairs : List (Nat × Nat))
    (r : RawToolEvent) (h : ∀ p ∈ pairs, r.id ≠ p.1) :
    applyMarks now pairs r = r := by
  induction pairs with
  | nil => rfl
  | cons p ps ih =>
    unfold applyMarks
    rw [List.foldl_cons, if_neg (h p (List.mem_cons_self p ps))]
    exact ih (fun q hq => h q (List.mem_cons_of_mem p hq))

theorem applyMarks_hit (now : Nat) (pairs : List (Nat × Nat))
    (r : RawToolEvent) (tid o : Nat)
    (hnd : (pairs.map Prod.fst).Nodup) (hmem : (tid, o) ∈ pairs)
    (hid : r.id = tid) :
    applyMarks now pairs r =
      { r with status := Status.completed, observation_id := some o,
               summarized_at_epoch := some now } := by
  induction pairs generalizing r with
  | nil => cases hmem
  | cons p ps ih =>
    rw [List.map_cons, List.nodup_cons] at hnd
    rcases List.mem_cons.mp hmem with hp | hp
    · subst hp
      unfold applyMarks
      rw [List.foldl_cons, if_pos hid]
      show applyMarks now ps _ = _
      refine applyMarks_skip now ps _ ?_
      intro q hq heq
      have heq2 : r.id = q.1 := heq
      refine hnd.1 ?_
      show tid ∈ ps.map Prod.fst
      have htq : tid = q.1 := by rw [← hid, heq2]
      rw [htq]
      exact List.mem_map_of_mem Prod.fst hq
    · have hne : r.id ≠ p.1 := by
        intro heq
        refine hnd.1 ?_
        show p.1 ∈ ps.map Prod.fst
        rw [← heq, hid]
        exact List.mem_map.mpr ⟨(tid, o), hp, rfl⟩
      unfold applyMarks
      rw [List.foldl_cons, if_neg hne]
      exact ih r hnd.2 hp hid

/-- C8: for a per-session sub-batch of claimed events whose LLM response
parses to n observations: when n = 0 every row carrying a sub-batch
event's id is marked completed with observation_id 0; when n is positive
and the id list returned by storeObservations has length n, the row
carrying the id of the i-th event (0-based) is marked completed with the
id at index min(i, n-1) of the returned list, so events outnumbering
observations reuse the last observation id. -/
theorem observationAssignment_correct (maxRetries now : Nat)
    (events : List RawToolEvent)
    (hnd : (events.map (fun e => e.id)).Nodup)
    (n : Nat) (ids : List Nat) (hlen : ids.length = n)
    (tbl : List RawToolEvent) :
    (n = 0 → ∀ e ∈ events,
      ∀ r ∈ markSessionOutcome maxRetries now events
          (SessionOutcome.success n ids) tbl,
        r.id = e.id →
          r.status = Status.completed ∧ r.observation_id = some 0) ∧
    (0 < n → ∀ i (hi : i < events.length),
      ∀ r ∈ markSessionOutcome maxRetries now events
          (SessionOutcome.success n ids) tbl,
        r.id = events[i].id →
          r.status = Status.completed ∧
          r.observation_id = some (ids.getD (min i (n - 1)) 0)) := by
  constructor
  · intro hn0 e he r hr hid
    subst hn0
    have hmso : markSessionOutcome maxRetries now events
        (SessionOutcome.success 0 ids) tbl =
        tbl.map (applyMarks now (events.map (fun e => (e.id, 0)))) := by
      show (if (0 : Nat) = 0 then
          events.foldl (fun t e => markCompleted e.id 0 now t) tbl
        else events.enum.foldl
          (fun t p => markCompleted p.2.id (obsIdFor ids p.1) now t)
          tbl) = _
      rw [if_pos rfl, ← foldMark_eq_map, List.foldl_map]
    rw [hmso] at hr
    obtain ⟨u, hu, hfu⟩ := List.mem_map.mp hr
    have hfst : (events.map (fun e => (e.id, 0))).map Prod.fst =
        events.map (fun e => e.id) := by
      rw [List.map_map]
      rfl
    have huid : u.id = e.id := by
      rw [← applyMarks_id now (events.map (fun e => (e.id, 0))) u, hfu, hid]
    have hhit := applyMarks_hit now (events.map (fun e => (e.id, 0))) u
      e.id 0 (by rw [hfst]; exact hnd)
      (List.mem_map.mpr ⟨e, he, rfl⟩) huid
    rw [hhit] at hfu
    rw [← hfu]
    exact ⟨rfl, rfl⟩
  · intro hn i hi r hr hid
    have hn0 : ¬ n = 0 := Nat.pos_iff_ne_zero.mp hn
    have hmso : markSessionOutcome maxRetries now events
        (SessionOutcome.success n ids) tbl =
        tbl.map (applyMarks now
          (events.enum.map (fun p => (p.2.id, obsIdFor ids p.1)))) := by
      show (if n = 0 then
          events.foldl (fun t e => markCompleted e.id 0 now t) tbl
        else events.enum.foldl
          (fun t p => markCompleted p.2.id (obsIdFor ids p.1) now t)
          tbl) = _
      rw [if_neg hn0, ← foldMark_eq_map, List.foldl_map]
    rw [hmso] at hr
    obtain ⟨u, hu, hfu⟩ := List.mem_map.mp hr
    have hfst : (events.enum.map
        (fun p => (p.2.id, obsIdFor ids p.1))).map Prod.fst =
        events.map (fun e => e.id) := by
      rw [List.map_map]
      show events.enum.map (fun p => p.2.id) = events.map (fun e => e.id)
      rw [show (fun p : Nat × RawToolEvent => p.2.id) =
        ((fun e : RawToolEvent => e.id) ∘ Prod.snd) from rfl]
      rw [← List.map_map, List.enum_map_snd]
    have hei : i < events.enum.length := by
      rw [List.enum_length]
      exact hi
    have hpm : (events[i].id, obsIdFor ids i) ∈
        events.enum.map (fun p => (p.2.id, obsIdFor ids p.1)) := by
      have hmi : i < (events.enum.map
          (fun p => (p.2.id, obsIdFor ids p.1))).length := by
        rw [List.length_map]
        exact hei
      have hgm : (events.enum.map
          (fun p => (p.2.id, obsIdFor ids p.1)))[i] =
          (events[i].id, obsIdFor ids i) := by
        rw [List.getElem_map, List.getElem_enum]
      rw [← hgm]
      exact List.getElem_mem _
    have huid : u.id = events[i].id := by
      rw [← applyMarks_id now
        (events.enum.map (fun p => (p.2.id, obsIdFor ids p.1))) u,
        hfu, hid]
    have hhit := applyMarks_hit now
      (events.enum.map (fun p => (p.2.id, obsIdFor ids p.1))) u
      (events[i].id) (obsIdFor ids i) (by rw [hfst]; exact hnd) hpm huid
    rw [hhit] at hfu
    rw [← hfu]
    refine ⟨rfl, ?_⟩
    show some (obsIdFor ids i) = _
    unfold obsIdFor
    rw [hlen]

/-- Witness: observationAssignment_correct applied at a concrete
three-event sub-batch with two observation ids: events 0 and 1 get ids 90
and 91, the surplus event 2 reuses id 91. -/
theorem observationAssignment_correct_witness :
    ((0 : Nat) < 2) ∧
    ((2 : Nat) < ([sampleEvent 1 7 Status.summarizing 0 10,
       sampleEvent 2 7 Status.summarizing 0 20,
       sampleEvent 3 7 Status.summarizing 0 30].length)) ∧
    (∀ r ∈ markSessionOutcome 3 500
        [sampleEvent 1 7 Status.summarizing 0 10,
         sampleEvent 2 7 Status.summarizing 0 20,
         sampleEvent 3 7 Status.summarizing 0 30]
        (SessionOutcome.success 2 [90, 91])
        [sampleEvent 1 7 Status.summarizing 0 10,
         sampleEvent 2 7 Status.summarizing 0 20,
         sampleEvent 3 7 Status.summarizing 0 30],
      r.id = ([sampleEvent 1 7 Status.summarizing 0 10,
         sampleEvent 2 7 Status.summarizing 0 20,
         sampleEvent 3 7 Status.summarizing 0 30][2]).id →
        r.status = Status.completed ∧
        r.observation_id = some ([90, 91].getD (min 2 (2 - 1)) 0)) :=
  ⟨by decide, by decide,
    (observationAssignment_correct 3 500
      [sampleEvent 1 7 Status.summarizing 0 10,
       sampleEvent 2 7 Status.summarizing 0 20,
       sampleEvent 3 7 Status.summarizing 0 30]
      (by decide) 2 [90, 91] (by decide)
      [sampleEvent 1 7 Status.summarizing 0 10,
       sampleEvent 2 7 Status.summarizing 0 20,
       sampleEvent 3 7 Status.summarizing 0 30]).2
      (by decide) 2 (by decide)⟩

/-- C9 (code bug): a tracked process whose handle reports killed = false
and exitCode = null, and which ignores SIGTERM, makes terminateProcess
return true while the pid still exists after the call: kill('SIGTERM')
succeeds and sets the handle's killed flag, so waitForExit's synchronous
proc.killed check resolves true immediately even though no exit event has
fired — the graceful wait is skipped, no SIGKILL is sent and the
verifyProcessDead probe never runs.  This contradicts the claim
(return true if and only if the pid no longer exists after the call) and
the method's own documentation (true if process was terminated or already
dead).  The no-tracked-process branch, by contrast, returns true as
claimed. -/
theorem terminateProcess_true_while_alive :
    (terminateProcess
      (some { pid := 4242, killed := false, exitCode := none })
      { termSignalOk := true, exitsWithinGrace := false,
        killSignalOk := true, exitsWithinKillWait := false,
        pidAliveAfter := true } = true) ∧
    (({ termSignalOk := true, exitsWithinGrace := false,
        killSignalOk := true, exitsWithinKillWait := false,
        pidAliveAfter := true } : OsBehavior).pidAliveAfter = true) ∧
    (terminateProcess none
      { termSignalOk := true, exitsWithinGrace := false,
        killSignalOk := true, exitsWithinKillWait := false,
        pidAliveAfter := true } = true) := by
  decide

end ClaudeMem
